import Mathlib

/-!
Verification of the magicmix track-sequencing engine.

The Go sources are embedded shallowly:
* `float64` values (BPM, scores, costs) are modelled as exact rationals `ℚ`;
  the engine's arithmetic stays well within the range where `float64`
  and real arithmetic agree for the properties proved here.
* Go slices become `List`, Go maps with zero-defaulting lookups become
  total functions (a deleted entry and an absent entry both read as `0`,
  exactly as in Go).
* The seeded random generator (`math/rand`) is external library code, so it
  is abstracted: every definition is parameterised by a state type `σ`, a
  step function `rngF : σ → Nat → Nat × σ` modelling `(*rand.Rand).Intn`,
  and `mkRng : Int → σ` modelling `rand.New(rand.NewSource(seed))`.
* `context.Context` is modelled by `Ctx`: the stored limit and seed values,
  the first polling step at which `ctx.Done()` fires (`none` = never), and
  the value `time.Now().UnixNano()` would return if consulted.
-/

-- The kernel reduces these fine; the default `irreducible` marking only
-- blocks `decide`'s elaboration-time evaluation, so it is relaxed here.
attribute [local semireducible] Rat.add Rat.mul Rat.sub Rat.inv Rat.ofScientific

namespace Magicmix

/-! ## track package (`track.go`): keys, tracks, parsing -/

/-- Camelot key: `Number` in 1..12, `Mode` is the character `A` or `B`
(Go's `Mode` is a string over those two values; a single `Char` carries
the same information for valid keys). -/
structure Key where
  number : Int
  mode : Char
deriving DecidableEq, Repr

/-- A single audio track row. -/
structure Track where
  title : String
  artist : String
  bpm : ℚ
  energy : Int
  key : Key
deriving DecidableEq, Repr

instance : Inhabited Key := ⟨⟨0, 'A'⟩⟩

instance : Inhabited Track := ⟨⟨"", "", 0, 0, default⟩⟩

/-- Go `Track.Clone`: field-by-field value copy. -/
def Track.clone (t : Track) : Track :=
  { title := t.title, artist := t.artist, bpm := t.bpm, energy := t.energy, key := t.key }

/-- Go `unicode.IsSpace` restricted to the characters relevant here
(ASCII whitespace plus NEL and NBSP). -/
def goIsSpace (c : Char) : Bool :=
  c = ' ' ∨ c = '\t' ∨ c = '\n' ∨ c = '\x0b' ∨ c = '\x0c' ∨ c = '\r' ∨
    c.toNat = 133 ∨ c.toNat = 160

/-- Go `strings.ToUpper` on one character (ASCII range, which covers every
character a key label can contain). -/
def goUpperChar (c : Char) : Char :=
  if 97 ≤ c.toNat ∧ c.toNat ≤ 122 then Char.ofNat (c.toNat - 32) else c

/-- Go `strings.TrimSpace`. -/
def goTrimSpace (cs : List Char) : List Char :=
  ((cs.dropWhile goIsSpace).reverse.dropWhile goIsSpace).reverse

/-- The cleaning step `strings.TrimSpace(strings.ToUpper(input))` of `ParseKey`. -/
def cleanKeyInput (cs : List Char) : List Char :=
  goTrimSpace (cs.map goUpperChar)

/-- ASCII decimal digit test (as in Go's `strconv` byte loop). -/
def isDigitChar (c : Char) : Bool :=
  48 ≤ c.toNat ∧ c.toNat ≤ 57

/-- Numeric value of a digit character. -/
def digitVal (c : Char) : Int :=
  (c.toNat : Int) - 48

/-- Digit-run accumulator of `strconv.ParseInt`: all characters must be
digits. -/
def digitsGo : List Char → Int → Option Int
  | [], acc => some acc
  | c :: rest, acc =>
      if isDigitChar c then digitsGo rest (acc * 10 + digitVal c) else none

/-- Go `strconv.Atoi`: an optional single leading sign followed by a
non-empty run of decimal digits.  (Overflow cannot occur at the at most
two digits `ParseKey` feeds in, so it is not modelled.) -/
def goAtoi (cs : List Char) : Option Int :=
  match cs with
  | [] => none
  | c0 :: rest =>
      if c0 = '+' then (if rest.isEmpty then none else digitsGo rest 0)
      else if c0 = '-' then (if rest.isEmpty then none else (digitsGo rest 0).map (fun n => -n))
      else digitsGo (c0 :: rest) 0

/-- The body of `track.ParseKey` after cleaning: length guard, mode guard,
`Atoi`, range guard.  `none` stands for the returned error. -/
def parseCleaned (cs : List Char) : Option Key :=
  if cs.length < 2 ∨ 3 < cs.length then none
  else
    let mode := cs.getD (cs.length - 1) ' '
    if mode ≠ 'A' ∧ mode ≠ 'B' then none
    else
      match goAtoi cs.dropLast with
      | none => none
      | some n => if n < 1 ∨ 12 < n then none else some ⟨n, mode⟩

/-- Go `track.ParseKey`. -/
def ParseKey (s : String) : Option Key :=
  parseCleaned (cleanKeyInput s.data)

/-- Modelled from the spec: the claim's acceptance predicate — after
trimming and case folding, the string must be a (canonically written)
number from 1 to 12 immediately followed by the letter A or B, as in
`1A` or `12b`. -/
def canonicalKeyForm (s : String) : Option Key :=
  match cleanKeyInput s.data with
  | [c, m] =>
      if (m = 'A' ∨ m = 'B') ∧ isDigitChar c ∧ 1 ≤ digitVal c then
        some ⟨digitVal c, m⟩
      else none
  | [c1, c2, m] =>
      if (m = 'A' ∨ m = 'B') ∧ c1 = '1' ∧ (c2 = '0' ∨ c2 = '1' ∨ c2 = '2') then
        some ⟨10 + digitVal c2, m⟩
      else none
  | _ => none

/-- Grammar-style reformulation of what the code accepts, used for the
amended claim: two cleaned characters `digit·mode` with digit ≥ 1, or
three cleaned characters that are either `+·digit·mode` with digit ≥ 1 or
`digit·digit·mode` with the two-digit value in 1..12. -/
def keyGrammarCleaned : List Char → Option Key
  | [c, m] =>
      if (m = 'A' ∨ m = 'B') ∧ isDigitChar c ∧ 1 ≤ digitVal c then
        some ⟨digitVal c, m⟩
      else none
  | [c1, c2, m] =>
      if m = 'A' ∨ m = 'B' then
        if c1 = '+' then
          if isDigitChar c2 ∧ 1 ≤ digitVal c2 then some ⟨digitVal c2, m⟩ else none
        else
          if isDigitChar c1 ∧ isDigitChar c2 ∧
              1 ≤ 10 * digitVal c1 + digitVal c2 ∧ 10 * digitVal c1 + digitVal c2 ≤ 12 then
            some ⟨10 * digitVal c1 + digitVal c2, m⟩
          else none
      else none
  | _ => none

/-- The amended acceptance predicate lifted to raw strings. -/
def keyGrammar (s : String) : Option Key :=
  keyGrammarCleaned (cleanKeyInput s.data)

/-! ## strategy package: context plumbing (`strategy.go`) -/

/-- The observable content of the `context.Context` a caller hands to
`Sort`: the values stored by `WithLimit`/`WithSeed`, the first poll index
at which `ctx.Done()` is closed (`none`: it never fires during the call),
and the value `time.Now().UnixNano()` yields if the seed falls back to
time. -/
structure Ctx where
  limit : Option Int
  seed : Option Int
  doneFrom : Option Nat
  now : Int

/-- Go `limitFromContext`: the stored limit, `0` when absent. -/
def limitFromContext (ctx : Ctx) : Int :=
  match ctx.limit with
  | some l => l
  | none => 0

/-- Go `seedFromContext`: the stored seed and whether one was present. -/
def seedFromContext (ctx : Ctx) : Option Int :=
  ctx.seed

/-- The seed resolution in `newMixPlanner`:
`if !ok || seed == 0 { seed = time.Now().UnixNano() }`. -/
def resolvedSeed (ctx : Ctx) : Int :=
  match seedFromContext ctx with
  | some s => if s = 0 then ctx.now else s
  | none => ctx.now

/-- Whether `ctx.Done()` is found closed at the `i`-th poll. -/
def ctxDoneAt (doneFrom : Option Nat) (i : Nat) : Bool :=
  match doneFrom with
  | some d => d ≤ i
  | none => false

/-! ## strategy package: the default sorter (`default.go`) -/

def cycleMinTracks : Int := 6
def cycleMaxTracks : Int := 10
def cycleIdealTracks : Int := 8
def keyWeight : ℚ := 12.0
def bpmWeight : ℚ := 0.8
def energyWeight : ℚ := 2.0
def varietyStepThreshold : Int := 2
def varietyStepWeight : ℚ := 3.0
def varietyLetterThreshold : Int := 5
def varietyLetterWeight : ℚ := 2.5
def varietyEnergyThreshold : Int := 5
def varietyEnergyReward : ℚ := 1.5
def varietyEnergyPenalty : ℚ := 0.6
def energyDropThreshold : Int := 10
def startSelectionTolerance : ℚ := 1.0

/-- Go `math.Round` (half away from zero), then conversion to `int`. -/
def goRound (q : ℚ) : Int :=
  if 0 ≤ q then (q + 1/2).floor else -((-q + 1/2).floor)

/-- Aggregate statistics of the full input (`mixStats`). -/
structure MixStats where
  energySorted : List Int
  bpmSorted : List ℚ
  energyLow : ℚ
  energyHigh : ℚ
  energyMedian : ℚ
  bpmMedian : ℚ
deriving DecidableEq, Repr

/-- Per-run planner state (`mixPlanner`), parameterised by the random
generator's state type. -/
structure MixPlanner (σ : Type) where
  remaining : List Track
  stats : MixStats
  desiredCycleLength : Int
  countsByKey : Key → Int
  countsByNumber : Int → Int
  rngState : σ
  totalTracks : Int
  targetCount : Int

/-- Greedy-step cursor (`mixState`). -/
structure MixState where
  prev : Track
  prevSet : Bool
  cycleIndex : Int
  tracksInCycle : Int
  cycleStartEnergy : ℚ
  desiredCycleLen : Int
  stats : MixStats
  sameNumberStreak : Int
  stepsSinceStep1 : Int
  stepsSinceStep2 : Int
  stepsSinceLetterFlip : Int
  stepsSinceEnergyDrop : Int
deriving DecidableEq, Repr

/-- Key transition descriptor (`transition`). -/
structure Transition where
  diff : Int
  wrap : Bool
  modeChange : Bool
deriving DecidableEq, Repr

/-- Go `quantileInts`. -/
def quantileInts (values : List Int) (q : ℚ) : ℚ :=
  if values.length = 0 then 0
  else if q ≤ 0 then (values.getD 0 0 : Int)
  else if 1 ≤ q then (values.getD (values.length - 1) 0 : Int)
  else
    let position := q * ((values.length : ℚ) - 1)
    let lower := position.floor
    let upper := position.ceil
    if lower = upper then (values.getD lower.toNat 0 : Int)
    else
      let fraction := position - (lower : ℚ)
      (values.getD lower.toNat 0 : Int) +
        ((values.getD upper.toNat 0 : Int) - (values.getD lower.toNat 0 : Int)) * fraction

/-- Go `quantileFloats`. -/
def quantileFloats (values : List ℚ) (q : ℚ) : ℚ :=
  if values.length = 0 then 0
  else if q ≤ 0 then values.getD 0 0
  else if 1 ≤ q then values.getD (values.length - 1) 0
  else
    let position := q * ((values.length : ℚ) - 1)
    let lower := position.floor
    let upper := position.ceil
    if lower = upper then values.getD lower.toNat 0
    else
      let fraction := position - (lower : ℚ)
      values.getD lower.toNat 0 +
        (values.getD upper.toNat 0 - values.getD lower.toNat 0) * fraction

/-- Go `analyzeMixStats` (`sort.Ints`/`sort.Float64s` produce the ascending
reordering; `insertionSort` yields that same list). -/
def analyzeMixStats (tracks : List Track) : MixStats :=
  let energies := (tracks.map (fun t => t.energy)).insertionSort (· ≤ ·)
  let bpms := (tracks.map (fun t => t.bpm)).insertionSort (· ≤ ·)
  { energySorted := energies
    bpmSorted := bpms
    energyLow := quantileInts energies 0.25
    energyHigh := quantileInts energies 0.75
    energyMedian := quantileInts energies 0.5
    bpmMedian := quantileFloats bpms 0.5 }

/-- Go `idealCycleLength`. -/
def idealCycleLength (total : Int) : Int :=
  if total ≤ cycleMinTracks then
    if total = 0 then cycleMinTracks else total
  else
    let estimatedCycles : Int := max 1 (goRound ((total : ℚ) / (cycleIdealTracks : ℚ)))
    min (max (goRound ((total : ℚ) / (estimatedCycles : ℚ))) cycleMinTracks) cycleMaxTracks

/-- Modelled from the spec sentence of claim C6, word for word: n = 0 gives
6; 1 ≤ n ≤ 6 gives n; otherwise `round(n / max(1, round(n/8)))` clamped to
[6, 10]. -/
def specCycleLength (n : Nat) : Int :=
  if n = 0 then 6
  else if n ≤ 6 then (n : Int)
  else
    let cycles : Int := max 1 (goRound ((n : ℚ) / 8))
    min 10 (max 6 (goRound ((n : ℚ) / (cycles : ℚ))))

/-- Pointwise-update helper for the Go maps (`m[k]++` / `delete`);
an entry holding `0` and a deleted entry are indistinguishable to Go's
zero-defaulting reads. -/
def updFn {α : Type} [DecidableEq α] (m : α → Int) (a : α) (v : Int) : α → Int :=
  fun x => if x = a then v else m x

/-- Go `newMixPlanner`, after seed resolution (`resolvedSeed`). -/
def newMixPlanner {σ : Type} (mkRng : Int → σ) (seed : Int) (tracks : List Track)
    (targetCount : Int) : MixPlanner σ :=
  let remaining := tracks.map Track.clone
  let stats := analyzeMixStats remaining
  let countsByKey := remaining.foldl (fun m t => updFn m t.key (m t.key + 1)) (fun _ => 0)
  let countsByNumber :=
    remaining.foldl (fun m t => updFn m t.key.number (m t.key.number + 1)) (fun _ => 0)
  let desired := idealCycleLength remaining.length
  { remaining := remaining
    stats := stats
    desiredCycleLength := desired
    countsByKey := countsByKey
    countsByNumber := countsByNumber
    rngState := mkRng seed
    totalTracks := tracks.length
    targetCount := targetCount }

/-- Go `mixPlanner.initialState`. -/
def initialState {σ : Type} (p : MixPlanner σ) (start : Track) : MixState :=
  { prev := start
    prevSet := true
    cycleIndex := 0
    tracksInCycle := 1
    cycleStartEnergy := (start.energy : ℚ)
    desiredCycleLen := p.desiredCycleLength
    stats := p.stats
    sameNumberStreak := 0
    stepsSinceStep1 := 0
    stepsSinceStep2 := 0
    stepsSinceLetterFlip := 0
    stepsSinceEnergyDrop := 0 }

/-- Go `computeTransition`. -/
def computeTransition (st : MixState) (candidate : Track) : Transition :=
  if st.prevSet = false then ⟨0, false, false⟩
  else
    let prevNumber := st.prev.key.number
    let nextNumber := candidate.key.number
    let diff0 := nextNumber - prevNumber
    let diff := if diff0 < 0 then diff0 + 12 else diff0
    let wrap := decide (diff0 < 0)
    let modeChange := candidate.key.mode != st.prev.key.mode
    ⟨diff, wrap, modeChange⟩

/-- Go `categorizeTransition`. -/
def categorizeTransition (st : MixState) (trans : Transition) : Int :=
  if st.prevSet = false then 0
  else if trans.modeChange = true ∧ 0 < trans.diff then 4
  else if trans.diff = 1 then (if trans.modeChange then 4 else 0)
  else if trans.diff = 2 then (if trans.modeChange then 4 else 1)
  else if trans.diff = 0 then (if trans.modeChange then 3 else 2)
  else 4

/-- First-occurrence deduplication, as the `seen` map loop at the end of
`categoryOrder` does. -/
def uniqueKeep (seen : List Nat) : List Nat → List Nat
  | [] => []
  | v :: rest => if v ∈ seen then uniqueKeep seen rest else v :: uniqueKeep (v :: seen) rest

/-- Go `categoryOrder`. -/
def categoryOrder (st : MixState) : List Nat :=
  if st.prevSet = false then [0, 1, 2, 3, 4]
  else
    let order :=
      if varietyStepThreshold ≤ st.stepsSinceStep2 then [1, 0, 2, 3, 4]
      else if varietyStepThreshold ≤ st.stepsSinceStep1 then [0, 1, 2, 3, 4]
      else [0, 1, 2, 3, 4]
    let order :=
      if varietyLetterThreshold ≤ st.stepsSinceLetterFlip then 3 :: order else order
    uniqueKeep [] order

/-- Go `hasShallowStepOption`. -/
def hasShallowStepOption {σ : Type} (st : MixState) (p : MixPlanner σ) (maxStep : Int) : Bool :=
  if st.prevSet = false then true
  else
    p.remaining.any (fun cand =>
      let trans := computeTransition st cand
      decide (trans.diff = 0) ||
        (!trans.modeChange && decide (0 < trans.diff) && decide (trans.diff ≤ maxStep)))

/-- Go `keyTransitionCost`. -/
def keyTransitionCost (st : MixState) (trans : Transition) : ℚ :=
  if st.prevSet = false then 0
  else
    let diff := trans.diff
    let cost : ℚ :=
      if diff = 0 then 3.0
      else if diff = 1 then 0
      else if diff = 2 then 0
      else if diff = 3 then 2
      else ((diff * diff : Int) : ℚ) / 2
    let cost := if trans.modeChange = true ∧ 0 < diff then cost + 12 else cost
    if trans.wrap = true ∧ 2 < diff then
      let basePenalty : ℚ :=
        if st.desiredCycleLen - 1 ≤ st.tracksInCycle then 6.0 * 0.4
        else if st.desiredCycleLen - 2 ≤ st.tracksInCycle then 6.0 * 0.6
        else 6.0
      cost + basePenalty
    else cost

/-- Go `nextEnergyTarget`. -/
def nextEnergyTarget (st : MixState) (stats : MixStats) (desiredCycleLen : Int) : ℚ :=
  let base := st.cycleStartEnergy
  let high := if stats.energyHigh ≤ base then min 100 (base + 12) else stats.energyHigh
  let progress := (st.tracksInCycle : ℚ) / ((max desiredCycleLen 1 : Int) : ℚ)
  let progress := if 1 < progress then 1 else progress
  base + (high - base) * progress

/-- Go `energyTransitionCost`. -/
def energyTransitionCost (st : MixState) (candidate : Track) (trans : Transition)
    (stats : MixStats) (desiredCycleLen : Int) : ℚ :=
  let energy := (candidate.energy : ℚ)
  if st.prevSet = false then |energy - stats.energyLow| / 8
  else
    let delta := energy - (st.prev.energy : ℚ)
    let drop := -delta
    if trans.wrap then
      let target := stats.energyLow
      let cost := |energy - target| / 6
      let cost := if drop < 12 then cost + (12 - drop) / 6 else cost
      let cost :=
        if (energyDropThreshold : ℚ) ≤ drop ∧ varietyEnergyThreshold ≤ st.stepsSinceEnergyDrop then
          cost - ((st.stepsSinceEnergyDrop - varietyEnergyThreshold + 1 : Int) : ℚ) * varietyEnergyReward
        else if drop < (energyDropThreshold : ℚ) ∧
            varietyEnergyThreshold + 2 ≤ st.stepsSinceEnergyDrop then
          cost + ((st.stepsSinceEnergyDrop - (varietyEnergyThreshold + 1) : Int) : ℚ) * varietyEnergyPenalty
        else cost
      if cost < -5 then -5 else cost
    else
      let target := nextEnergyTarget st stats desiredCycleLen
      let cost := |energy - target| / 9
      let cost :=
        if delta < 0 then
          if Int.tdiv desiredCycleLen 2 < st.tracksInCycle then cost + |delta| / 10
          else cost + |delta| / 6
        else if 12 < delta then cost + (delta - 12) / 8
        else cost
      let cost :=
        if (energyDropThreshold : ℚ) ≤ drop ∧ varietyEnergyThreshold ≤ st.stepsSinceEnergyDrop then
          cost - ((st.stepsSinceEnergyDrop - varietyEnergyThreshold + 1 : Int) : ℚ) * varietyEnergyReward
        else if drop < (energyDropThreshold : ℚ) ∧
            varietyEnergyThreshold + 2 ≤ st.stepsSinceEnergyDrop then
          cost + ((st.stepsSinceEnergyDrop - (varietyEnergyThreshold + 1) : Int) : ℚ) * varietyEnergyPenalty
        else cost
      if cost < -5 then -5 else cost

/-- Go `bpmTransitionCost`. -/
def bpmTransitionCost (st : MixState) (candidate : Track) (stats : MixStats) : ℚ :=
  if st.prevSet = false then |candidate.bpm - stats.bpmMedian| / 6
  else
    let diff := |candidate.bpm - st.prev.bpm|
    if diff ≤ 1 then diff * 0.2
    else if diff ≤ 2.5 then diff * 0.4
    else if diff ≤ 5 then 0.8 + (diff - 2.5) * 0.5
    else 2 + (diff - 5) * 0.7

/-- Go `closeFloat`. -/
def closeFloat (a b : ℚ) : Bool :=
  |a - b| ≤ 1e-6

/-- Go `maxInt`. -/
def maxInt (a b : Int) : Int :=
  if a > b then a else b

/-- Go `mixPlanner.transitionScoreWithTransition`. -/
def transitionScoreWithTransition {σ : Type} (p : MixPlanner σ) (st : MixState)
    (candidate : Track) (trans : Transition) : ℚ :=
  let keyCost := keyTransitionCost st trans
  let energyCost := energyTransitionCost st candidate trans p.stats p.desiredCycleLength
  let bpmCost := bpmTransitionCost st candidate p.stats
  let remainingCount := ((p.countsByNumber candidate.key.number : Int) : ℚ)
  let flexCost : ℚ := if 0 < remainingCount then 1.0 / remainingCount else 0.0
  let total := keyCost * keyWeight + bpmCost * bpmWeight + energyCost * energyWeight + flexCost
  let coverage : ℚ :=
    if 0 < p.totalTracks then
      let c := ((p.targetCount : Int) : ℚ) / ((p.totalTracks : Int) : ℚ)
      let c := if 1 < c then 1 else c
      if c < 0.1 then 0.1 else c
    else 1.0
  let total :=
    if st.prevSet then
      let total :=
        if 0 < trans.diff then
          let remainingCurrent := ((p.countsByNumber st.prev.key.number : Int) : ℚ)
          let total :=
            if 0 < remainingCurrent then total + remainingCurrent * 0.5 * coverage else total
          let remainingMode := ((p.countsByKey st.prev.key : Int) : ℚ)
          if 0 < remainingMode then total + remainingMode * 1.0 * coverage else total
        else total
      if 3 ≤ trans.diff ∧ hasShallowStepOption st p 2 then
        total + (((trans.diff - 2) * 8 : Int) : ℚ) + 18
      else total
    else total
  let total :=
    if st.prevSet then
      let total :=
        if trans.diff = 1 then
          let total :=
            if varietyStepThreshold ≤ st.stepsSinceStep1 then
              total - ((st.stepsSinceStep1 - varietyStepThreshold + 1 : Int) : ℚ) * varietyStepWeight
            else total
          if varietyStepThreshold + 1 ≤ st.stepsSinceStep2 then
            total + ((st.stepsSinceStep2 - varietyStepThreshold : Int) : ℚ) * (varietyStepWeight * 0.7)
          else total
        else total
      let total :=
        if trans.diff = 2 then
          let total :=
            if varietyStepThreshold ≤ st.stepsSinceStep2 then
              total - ((st.stepsSinceStep2 - varietyStepThreshold + 1 : Int) : ℚ) * varietyStepWeight
            else total
          if varietyStepThreshold + 1 ≤ st.stepsSinceStep1 then
            total + ((st.stepsSinceStep1 - varietyStepThreshold : Int) : ℚ) * (varietyStepWeight * 0.7)
          else total
        else total
      if trans.diff = 0 ∧ trans.modeChange = true ∧
          varietyLetterThreshold ≤ st.stepsSinceLetterFlip then
        total - ((st.stepsSinceLetterFlip - varietyLetterThreshold + 1 : Int) : ℚ) * varietyLetterWeight
      else total
    else total
  let baseWeight := 0.6 * coverage
  let total := total - remainingCount * baseWeight
  let total := total - ((p.countsByKey candidate.key : Int) : ℚ) * baseWeight
  let total :=
    if trans.wrap = true ∧ 2 < trans.diff ∧ st.tracksInCycle < cycleMinTracks then
      total + 7
    else total
  let total :=
    if trans.wrap = true ∧ 2 < trans.diff then
      if st.prevSet then
        let remainingCurrent := ((p.countsByNumber st.prev.key.number : Int) : ℚ)
        if 0 < remainingCurrent then total + remainingCurrent * 2 else total
      else total
    else total
  if st.prevSet = true ∧ trans.diff = 0 then
    total + ((st.sameNumberStreak + 1 : Int) : ℚ) * 6
  else total

/-- Go `mixPlanner.startScore`. -/
def startScore {σ : Type} (p : MixPlanner σ) (candidate : Track) : ℚ :=
  let keyCount := ((p.countsByNumber candidate.key.number : Int) : ℚ)
  let modeCount := ((p.countsByKey candidate.key : Int) : ℚ)
  let freqScore := -keyCount * 6
  let freqScore := if 1 < modeCount then freqScore - 1 else freqScore
  let energyTarget := p.stats.energyLow
  let energyDiff := |(candidate.energy : ℚ) - energyTarget|
  let bpmDiff := |candidate.bpm - p.stats.bpmMedian|
  freqScore + energyDiff * 0.2 + bpmDiff * 0.05

/-- The accumulator loop of `mixPlanner.chooseStartIndex`: running best
score (`none` models the `math.Inf(1)` start) and collected candidate
indices. -/
def startScan {σ : Type} (p : MixPlanner σ) :
    List (Nat × Track) → Option ℚ → List Nat → Option ℚ × List Nat
  | [], best, cands => (best, cands)
  | (idx, cand) :: rest, best, cands =>
      let score := startScore p cand
      match best with
      | none => startScan p rest (some score) [idx]
      | some b =>
          if score < b - startSelectionTolerance then startScan p rest (some score) [idx]
          else if score ≤ b + startSelectionTolerance then
            startScan p rest (some b) (cands ++ [idx])
          else startScan p rest (some b) cands

/-- Go `mixPlanner.chooseStartIndex`. -/
def chooseStartIndex {σ : Type} (rngF : σ → Nat → Nat × σ) (p : MixPlanner σ) : Nat × σ :=
  let scan := startScan p p.remaining.enum none []
  let candidates := scan.2
  if candidates.length = 0 then (0, p.rngState)
  else
    let pick := rngF p.rngState candidates.length
    (candidates.getD pick.1 0, pick.2)

/-- One bucket of `chooseNextIndex`'s `[5]choice` array: `none` is the
zero value with `set == false`. -/
def updBucket (b : Nat → Option (Nat × ℚ)) (c : Nat) (v : Option (Nat × ℚ)) :
    Nat → Option (Nat × ℚ) :=
  fun x => if x = c then v else b x

/-- The candidate loop of `mixPlanner.chooseNextIndex`: per-category best
candidate, with the seeded coin flip on near-ties. -/
def scanBuckets {σ : Type} (rngF : σ → Nat → Nat × σ) (p : MixPlanner σ) (st : MixState) :
    List (Nat × Track) → (Nat → Option (Nat × ℚ)) → σ → (Nat → Option (Nat × ℚ)) × σ
  | [], b, s => (b, s)
  | (idx, cand) :: rest, b, s =>
      let trans := computeTransition st cand
      let score := transitionScoreWithTransition p st cand trans
      let category := categorizeTransition st trans
      if category < 0 ∨ 5 ≤ category then scanBuckets rngF p st rest b s
      else
        let c := category.toNat
        match b c with
        | none => scanBuckets rngF p st rest (updBucket b c (some (idx, score))) s
        | some best =>
            if score < best.2 - 1e-6 then
              scanBuckets rngF p st rest (updBucket b c (some (idx, score))) s
            else if closeFloat score best.2 then
              let flip := rngF s 2
              if flip.1 = 0 then
                scanBuckets rngF p st rest (updBucket b c (some (idx, score))) flip.2
              else scanBuckets rngF p st rest b flip.2
            else scanBuckets rngF p st rest b s

/-- The category-preference walk at the end of `chooseNextIndex`. -/
def findFirstSet (order : List Nat) (b : Nat → Option (Nat × ℚ)) : Option Nat :=
  match order with
  | [] => none
  | c :: rest => if (b c).isSome then some c else findFirstSet rest b

/-- The bucket array and final generator state produced by the candidate
loop of `chooseNextIndex`. -/
def nextBuckets {σ : Type} (rngF : σ → Nat → Nat × σ) (p : MixPlanner σ)
    (st : MixState) : (Nat → Option (Nat × ℚ)) × σ :=
  scanBuckets rngF p st p.remaining.enum (fun _ => none) p.rngState

/-- Go `mixPlanner.chooseNextIndex`: `0` is the defensive fallback used when
every bucket is empty. -/
def chooseNextIndex {σ : Type} (rngF : σ → Nat → Nat × σ) (p : MixPlanner σ)
    (st : MixState) : Nat × σ :=
  match findFirstSet (categoryOrder st) (nextBuckets rngF p st).1 with
  | some c =>
      (match (nextBuckets rngF p st).1 c with
       | some best => best.1
       | none => 0, (nextBuckets rngF p st).2)
  | none => (0, (nextBuckets rngF p st).2)

/-- Go `mixPlanner.take`: count bookkeeping plus swap-remove of index `idx`. -/
def MixPlanner.take {σ : Type} (p : MixPlanner σ) (idx : Nat) : Track × MixPlanner σ :=
  let selected := p.remaining.getD idx default
  let ck := updFn p.countsByKey selected.key
    (if p.countsByKey selected.key - 1 ≤ 0 then 0 else p.countsByKey selected.key - 1)
  let cn := updFn p.countsByNumber selected.key.number
    (if p.countsByNumber selected.key.number - 1 ≤ 0 then 0
     else p.countsByNumber selected.key.number - 1)
  let last := p.remaining.length - 1
  let remaining := (p.remaining.set idx (p.remaining.getD last default)).take last
  (selected, { p with remaining := remaining, countsByKey := ck, countsByNumber := cn })

/-- Go `cappedIncrement` inside `advance`. -/
def cappedIncrement (v : Int) : Int :=
  if v < 100 then v + 1 else 100

/-- Go `mixState.advance`. -/
def MixState.advance (st : MixState) (next : Track) : MixState :=
  if st.prevSet = false then
    { st with
      prev := next
      prevSet := true
      cycleStartEnergy := (next.energy : ℚ)
      tracksInCycle := 1
      sameNumberStreak := 0
      stepsSinceStep1 := 0
      stepsSinceStep2 := 0
      stepsSinceLetterFlip := 0
      stepsSinceEnergyDrop := 0 }
  else
    let previous := st.prev
    let trans := computeTransition st next
    let st :=
      if trans.wrap then
        { st with
          prev := next
          cycleIndex := st.cycleIndex + 1
          tracksInCycle := 1
          cycleStartEnergy := (next.energy : ℚ) }
      else { st with prev := next, tracksInCycle := st.tracksInCycle + 1 }
    let st :=
      if trans.diff = 0 then { st with sameNumberStreak := st.sameNumberStreak + 1 }
      else { st with sameNumberStreak := 0 }
    let st :=
      { st with
        stepsSinceStep1 := cappedIncrement st.stepsSinceStep1
        stepsSinceStep2 := cappedIncrement st.stepsSinceStep2
        stepsSinceLetterFlip := cappedIncrement st.stepsSinceLetterFlip
        stepsSinceEnergyDrop := cappedIncrement st.stepsSinceEnergyDrop }
    let st := if trans.diff = 1 then { st with stepsSinceStep1 := 0 } else st
    let st := if trans.diff = 2 then { st with stepsSinceStep2 := 0 } else st
    let st :=
      if previous.key.mode != next.key.mode then { st with stepsSinceLetterFlip := 0 } else st
    let energyDelta := ((next.energy - previous.energy : Int) : ℚ)
    if (energyDropThreshold : ℚ) ≤ -energyDelta then { st with stepsSinceEnergyDrop := 0 }
    else st

/-- The `targetCount` computation at the top of `Sort`. -/
def effectiveTarget (limit : Int) (n : Nat) : Int :=
  if 0 < limit ∧ limit < (n : Int) then limit else (n : Int)

/-- The greedy emission loop of `Sort`.  `fuel` only forces structural
termination: every call site passes `fuel ≥ remaining.length`, and the
loop removes one track per iteration, so the `fuel = 0` branch coincides
with the loop's own `remainingCount() > 0` exit and is never the deciding
condition. -/
def sortLoop {σ : Type} (rngF : σ → Nat → Nat × σ) (doneFrom : Option Nat) :
    Nat → Nat → MixPlanner σ → MixState → List Track → Except Unit (List Track)
  | _, 0, _, _, ordered => .ok ordered
  | pollIdx, fuel + 1, p, st, ordered =>
      if 0 < p.remaining.length ∧ (ordered.length : Int) < p.targetCount then
        if ctxDoneAt doneFrom pollIdx then .error ()
        else
          let choice := chooseNextIndex rngF p st
          let taken := MixPlanner.take { p with rngState := choice.2 } choice.1
          let st' := st.advance taken.1
          sortLoop rngF doneFrom (pollIdx + 1) fuel taken.2 st' (ordered ++ [taken.1])
      else .ok ordered

/-- Go `DefaultSorter.Sort` with the context already projected to its
observable parts (`limitFromContext`, `resolvedSeed`, the poll schedule). -/
def sortAux {σ : Type} (rngF : σ → Nat → Nat × σ) (mkRng : Int → σ) (limit : Int)
    (seed : Int) (doneFrom : Option Nat) (tracks : List Track) : Except Unit (List Track) :=
  if tracks.length ≤ 1 then .ok (tracks.map Track.clone)
  else
    let targetCount := effectiveTarget limit tracks.length
    let p := newMixPlanner mkRng seed tracks targetCount
    let startPick := chooseStartIndex rngF p
    let taken := MixPlanner.take { p with rngState := startPick.2 } startPick.1
    let start := taken.1
    let p1 := taken.2
    let st := initialState p1 start
    let ordered := [start]
    if targetCount ≤ (ordered.length : Int) then .ok ordered
    else sortLoop rngF doneFrom 0 p1.remaining.length p1 st ordered

/-- Go `DefaultSorter.Sort`. -/
def sortGo {σ : Type} (rngF : σ → Nat → Nat × σ) (mkRng : Int → σ) (ctx : Ctx)
    (tracks : List Track) : Except Unit (List Track) :=
  sortAux rngF mkRng (limitFromContext ctx) (resolvedSeed ctx) ctx.doneFrom tracks

/-- Modelled from the spec: the requested output length, "with target
defaulting to the input length when no positive limit is supplied". -/
def requestedTarget (limit : Int) (n : Nat) : Int :=
  if 0 < limit then limit else (n : Int)

/-- A track with key number on the 12-position wheel (the engine assumes
its inputs passed `ParseKey`). -/
def validTrack (t : Track) : Prop :=
  1 ≤ t.key.number ∧ t.key.number ≤ 12

instance (t : Track) : Decidable (validTrack t) := by
  unfold validTrack; infer_instance

/-- A remaining candidate the spec calls shallow: forward distance at most
2 with no mode change, or distance 0. -/
def shallowStep (st : MixState) (t : Track) : Prop :=
  ((computeTransition st t).diff ≤ 2 ∧ (computeTransition st t).modeChange = false) ∨
    (computeTransition st t).diff = 0

instance (st : MixState) (t : Track) : Decidable (shallowStep st t) := by
  unfold shallowStep; infer_instance

/-! ## Concrete instances used by witnesses and counterexamples -/

instance {ε α : Type} [DecidableEq ε] [DecidableEq α] : DecidableEq (Except ε α) :=
  fun x y =>
    match x, y with
    | .ok a, .ok b =>
        if h : a = b then isTrue (by rw [h]) else isFalse (fun hc => h (by injection hc))
    | .error e, .error f =>
        if h : e = f then isTrue (by rw [h]) else isFalse (fun hc => h (by injection hc))
    | .ok _, .error _ => isFalse (fun hc => Except.noConfusion hc)
    | .error _, .ok _ => isFalse (fun hc => Except.noConfusion hc)

/-- Generator model that always returns the first admissible value. -/
def rngZero : Nat → Nat → Nat × Nat := fun s _ => (0, s)

/-- Generator model that returns `1` whenever the bound allows it. -/
def rngSecond : Nat → Nat → Nat × Nat := fun s n => (1 % n, s)

/-- Generator model whose draws depend on (and advance) the seed state. -/
def rngParity : Nat → Nat → Nat × Nat := fun s n => (s % n, s + 1)

/-- Seed-to-state map for the `Nat`-state generator models. -/
def mkRngNat : Int → Nat := Int.toNat

def trackW1 : Track := ⟨"", "", 120, 50, ⟨1, 'A'⟩⟩
def trackW2 : Track := ⟨"", "", 120, 50, ⟨2, 'A'⟩⟩
def trackLowE : Track := ⟨"", "", 120, 0, ⟨1, 'A'⟩⟩
def trackHighE : Track := ⟨"", "", 120, 40, ⟨2, 'A'⟩⟩
def trackS1 : Track := ⟨"", "", 140, 50, ⟨1, 'A'⟩⟩
def trackS2 : Track := ⟨"", "", 80, 50, ⟨2, 'A'⟩⟩
def trackS3 : Track := ⟨"", "", 120, 50, ⟨3, 'A'⟩⟩

def statsZero : MixStats := ⟨[], [], 0, 0, 0, 0⟩

/-- Planner holding one remaining track, used to witness step-level claims. -/
def plannerW : MixPlanner Nat :=
  ⟨[trackW2], statsZero, 1, fun _ => 0, fun _ => 0, 0, 1, 1⟩

/-- Step state whose previous track is `trackW1`. -/
def stateW : MixState :=
  ⟨trackW1, true, 0, 1, 50, 1, statsZero, 0, 0, 0, 0, 0⟩

/-- Planner for the start-selection counterexample (start scores
−5, −4, −6 in input order). -/
def plannerStart : MixPlanner Nat :=
  newMixPlanner mkRngNat 1 [trackS1, trackS2, trackS3] 3

end Magicmix

/-! # Theorems -/

namespace Magicmix

/-! ## Generic list helpers -/

lemma map_clone (l : List Track) : l.map Track.clone = l := by
  induction l with
  | nil => rfl
  | cons a t ih => simp [Track.clone, ih]

lemma mem_enumFrom_spec {l : List Track} {n i : Nat} {x : Track}
    (h : (i, x) ∈ l.enumFrom n) :
    n ≤ i ∧ i - n < l.length ∧ l.getD (i - n) default = x := by
  obtain ⟨h1, h2, h3⟩ := List.mem_enumFrom h
  refine ⟨h1, by omega, ?_⟩
  rw [List.getD_eq_getElem l default (by omega)]
  exact h3.symm

lemma mem_enum_spec {l : List Track} {i : Nat} {x : Track}
    (h : (i, x) ∈ l.enum) : i < l.length ∧ l.getD i default = x := by
  have := mem_enumFrom_spec (n := 0) (by simpa [List.enum] using h)
  simpa using this

lemma enumFrom_of_mem {x : Track} :
    ∀ (l : List Track) (n : Nat), x ∈ l → ∃ i, (i, x) ∈ l.enumFrom n := by
  intro l
  induction l with
  | nil => intro n h; cases h
  | cons a t ih =>
      intro n h
      rcases List.mem_cons.mp h with h | h
      · exact ⟨n, by simp [List.enumFrom, h]⟩
      · obtain ⟨i, hi⟩ := ih (n + 1) h
        exact ⟨i, by simp [List.enumFrom, hi]⟩

lemma enum_of_mem {x : Track} {l : List Track} (h : x ∈ l) :
    ∃ i, (i, x) ∈ l.enum := by
  simpa [List.enum] using enumFrom_of_mem l 0 h

/-! ## Swap-remove (`mixPlanner.take`) -/

lemma swapRemove_perm :
    ∀ (l : List Track) (idx : Nat), idx < l.length →
      (l.getD idx default ::
        (l.set idx (l.getD (l.length - 1) default)).take (l.length - 1)).Perm l := by
  intro l
  induction l with
  | nil => intro idx h; simp at h
  | cons a t ih =>
      intro idx h
      cases idx with
      | zero =>
          rcases t with _ | ⟨b, t'⟩
          · simp
          · simp only [List.getD_cons_zero, List.length_cons, Nat.add_sub_cancel,
              List.getD_cons_succ, List.set_cons_zero, List.take_succ_cons]
            have hbt : (b :: t') ≠ [] := by simp
            have hlast : (b :: t').getD ((b :: t').length - 1) default = (b :: t').getLast hbt := by
              rw [List.getD_eq_getElem _ default (by simp), List.getLast_eq_getElem]
            have hdrop : (b :: t').take ((b :: t').length - 1) = (b :: t').dropLast := by
              rw [List.dropLast_eq_take]
            refine List.Perm.cons a ?_
            rw [show t'.length = (b :: t').length - 1 from by simp, hlast, hdrop]
            calc ((b :: t').getLast hbt :: (b :: t').dropLast).Perm
                  ((b :: t').dropLast ++ [(b :: t').getLast hbt]) :=
                  (List.perm_append_singleton _ _).symm
              _ = b :: t' := List.dropLast_append_getLast hbt
      | succ i =>
          have hi : i < t.length := by simpa using h
          have ht : t ≠ [] := by intro he; rw [he] at hi; simp at hi
          rcases t with _ | ⟨b, t'⟩
          · simp at hi
          · simp only [List.getD_cons_succ, List.length_cons, Nat.add_sub_cancel,
              List.set_cons_succ, List.take_succ_cons]
            have := ih i hi
            refine List.Perm.trans (List.Perm.swap a _ _) ?_
            exact List.Perm.cons a (by simpa using ih i hi)

lemma take_perm {σ : Type} (p : MixPlanner σ) (idx : Nat) (h : idx < p.remaining.length) :
    ((p.take idx).1 :: (p.take idx).2.remaining).Perm p.remaining := by
  simpa [MixPlanner.take] using swapRemove_perm p.remaining idx h

lemma take_length {σ : Type} (p : MixPlanner σ) (idx : Nat) :
    (p.take idx).2.remaining.length = p.remaining.length - 1 := by
  simp [MixPlanner.take]

lemma take_target {σ : Type} (p : MixPlanner σ) (idx : Nat) :
    (p.take idx).2.targetCount = p.targetCount := rfl

/-! ## Key parsing (claim C9) -/

lemma digit_val_bounds {c : Char} (h : isDigitChar c = true) :
    0 ≤ digitVal c ∧ digitVal c ≤ 9 := by
  unfold isDigitChar at h
  unfold digitVal
  simp only [decide_eq_true_eq] at h
  omega

lemma goAtoi_one (a : Char) (h1 : a ≠ '+') (h2 : a ≠ '-') :
    goAtoi [a] = if isDigitChar a then some (digitVal a) else none := by
  simp only [goAtoi, if_neg h1, if_neg h2]
  by_cases hd : isDigitChar a <;> simp [digitsGo, hd]

lemma goAtoi_two (a b : Char) (h1 : a ≠ '+') (h2 : a ≠ '-') :
    goAtoi [a, b] =
      if isDigitChar a ∧ isDigitChar b then some (10 * digitVal a + digitVal b)
      else none := by
  simp only [goAtoi, if_neg h1, if_neg h2]
  by_cases ha : isDigitChar a
  · by_cases hb : isDigitChar b
    · simp [digitsGo, ha, hb]; ring
    · simp [digitsGo, ha, hb]
  · simp [digitsGo, ha]

lemma goAtoi_plus (b : Char) :
    goAtoi ['+', b] = if isDigitChar b then some (digitVal b) else none := by
  simp only [goAtoi, if_pos rfl]
  by_cases hb : isDigitChar b <;> simp [digitsGo, hb]

lemma goAtoi_minus (b : Char) :
    goAtoi ['-', b] = if isDigitChar b then some (-(digitVal b)) else none := by
  simp only [goAtoi, if_neg (by decide : ¬ ('-' : Char) = '+'), if_pos rfl]
  by_cases hb : isDigitChar b <;> simp [digitsGo, hb]

lemma parse2 (a b : Char) : parseCleaned [a, b] = keyGrammarCleaned [a, b] := by
  simp only [parseCleaned, keyGrammarCleaned, List.length_cons, List.length_nil]
  norm_num
  by_cases hm : b = 'A' ∨ b = 'B'
  · rw [if_neg (by tauto)]
    by_cases hp : a = '+'
    · subst hp
      simp [goAtoi, isDigitChar, hm]
    · by_cases hn : a = '-'
      · subst hn
        simp [goAtoi, isDigitChar, hm]
      · rw [goAtoi_one a hp hn]
        by_cases hd : isDigitChar a
        · have hb := digit_val_bounds hd
          by_cases h1 : 1 ≤ digitVal a
          · have h12 : ¬(digitVal a < 1 ∨ 12 < digitVal a) := by omega
            simp [hm, hd, h1, h12]
          · have h12 : digitVal a < 1 ∨ 12 < digitVal a := by omega
            simp [hm, hd, h1, h12]
        · simp [hm, hd]
  · rw [if_pos (by tauto)]
    simp [hm]

lemma parse3 (a b c : Char) : parseCleaned [a, b, c] = keyGrammarCleaned [a, b, c] := by
  simp only [parseCleaned, keyGrammarCleaned, List.length_cons, List.length_nil]
  norm_num
  by_cases hm : c = 'A' ∨ c = 'B'
  · rw [if_neg (by tauto)]
    by_cases hp : a = '+'
    · subst hp
      rw [goAtoi_plus b]
      by_cases hd : isDigitChar b
      · have hb := digit_val_bounds hd
        by_cases h1 : 1 ≤ digitVal b
        · have h12 : ¬(digitVal b < 1 ∨ 12 < digitVal b) := by omega
          simp [hm, hd, h1, h12]
        · have h12 : digitVal b < 1 ∨ 12 < digitVal b := by omega
          simp [hm, hd, h1, h12]
      · simp [hm, hd]
    · by_cases hn : a = '-'
      · subst hn
        rw [goAtoi_minus b]
        by_cases hd : isDigitChar b
        · have hb := digit_val_bounds hd
          have h12 : -digitVal b < 1 ∨ 12 < -digitVal b := by omega
          simp [hm, hd, h12]
          rw [if_neg]
          intro hc
          exact absurd hc.1 (by decide)
        · simp [hm, hd]
      · rw [goAtoi_two a b hp hn]
        by_cases hd : isDigitChar a ∧ isDigitChar b
        · have hba := digit_val_bounds hd.1
          have hbb := digit_val_bounds hd.2
          by_cases h1 : 1 ≤ 10 * digitVal a + digitVal b ∧ 10 * digitVal a + digitVal b ≤ 12
          · have h12 : ¬(10 * digitVal a + digitVal b < 1 ∨ 12 < 10 * digitVal a + digitVal b) := by
              omega
            simp [hm, hd.1, hd.2, h1.1, h1.2, h12, hp]
          · have h12 : 10 * digitVal a + digitVal b < 1 ∨ 12 < 10 * digitVal a + digitVal b := by
              omega
            have h1n : ¬(isDigitChar a = true ∧ isDigitChar b = true ∧
                1 ≤ 10 * digitVal a + digitVal b ∧ 10 * digitVal a + digitVal b ≤ 12) := by
              intro hc
              exact h1 ⟨hc.2.2.1, hc.2.2.2⟩
            simp [hm, hd.1, hd.2, h12, hp, h1n]
            rw [if_neg h1]
        · have h1n : ¬(isDigitChar a = true ∧ isDigitChar b = true ∧
              1 ≤ 10 * digitVal a + digitVal b ∧ 10 * digitVal a + digitVal b ≤ 12) := by
            intro hc
            exact hd ⟨hc.1, hc.2.1⟩
          simp [hm, hd, hp, h1n]
  · rw [if_pos (by tauto)]
    simp [hm]

lemma parse_eq_grammar (l : List Char) : parseCleaned l = keyGrammarCleaned l := by
  match l with
  | [] => rfl
  | [a] => rfl
  | [a, b] => exact parse2 a b
  | [a, b, c] => exact parse3 a b c
  | a :: b :: c :: d :: rest =>
      have h : (a :: b :: c :: d :: rest).length < 2 ∨ 3 < (a :: b :: c :: d :: rest).length := by
        simp
      rw [show keyGrammarCleaned (a :: b :: c :: d :: rest) = none from rfl]
      simp [parseCleaned, h]


/-- C9: the code accepts `"+5A"` (sign allowed by `Atoi`), which is not a
canonically written number 1..12 followed by A/B, refuting the claimed
equivalence at this input. -/
theorem claim_C9_counterexample :
    ParseKey "+5A" = some ⟨5, 'A'⟩ ∧ canonicalKeyForm "+5A" = none := by
  exact ⟨rfl, rfl⟩

/-- C9 (amended): ParseKey succeeds exactly on trimmed, case-folded labels
of two or three characters ending in A/B whose prefix is an optionally
plus-signed (or zero-padded) decimal with value 1..12, and returns exactly
that number and mode. -/
theorem claim_C9_amended (s : String) : ParseKey s = keyGrammar s := by
  unfold ParseKey keyGrammar
  exact parse_eq_grammar (cleanKeyInput s.data)

/-- C6: the desired cycle length follows the spec formula exactly. -/
theorem claim_C6 (n : Nat) : idealCycleLength (n : Int) = specCycleLength n := by
  simp only [idealCycleLength, specCycleLength]
  rw [show ((n : Int) : ℚ) = (n : ℚ) from by push_cast; ring,
    show ((cycleIdealTracks : Int) : ℚ) = 8 from by norm_num [cycleIdealTracks]]
  simp only [cycleMinTracks, cycleMaxTracks]
  split_ifs <;> omega

/-- C7: the five-way classification of a transition, for any state with a
previous track and any transition with diff in [0, 11]. -/
theorem claim_C7 (st : MixState) (tr : Transition) (hprev : st.prevSet = true)
    (h0 : 0 ≤ tr.diff) (h11 : tr.diff ≤ 11) :
    (categorizeTransition st tr = 0 ↔ tr.diff = 1 ∧ tr.modeChange = false) ∧
    (categorizeTransition st tr = 1 ↔ tr.diff = 2 ∧ tr.modeChange = false) ∧
    (categorizeTransition st tr = 2 ↔ tr.diff = 0 ∧ tr.modeChange = false) ∧
    (categorizeTransition st tr = 3 ↔ tr.diff = 0 ∧ tr.modeChange = true) ∧
    (categorizeTransition st tr = 4 ↔
      (3 ≤ tr.diff ∨ (tr.modeChange = true ∧ 0 < tr.diff))) := by
  obtain ⟨d, w, m⟩ := tr
  simp only [categorizeTransition, hprev] at *
  cases m <;> simp_all <;> split_ifs <;> simp_all <;> omega

/-- C7 witness at a concrete diff-1, no-mode-change transition. -/
theorem claim_C7_witness :
    stateW.prevSet = true ∧ (0 : Int) ≤ 1 ∧ (1 : Int) ≤ 11 ∧
      ((categorizeTransition stateW ⟨1, false, false⟩ = 0 ↔ (1 : Int) = 1 ∧ false = false) ∧
       (categorizeTransition stateW ⟨1, false, false⟩ = 1 ↔ (1 : Int) = 2 ∧ false = false) ∧
       (categorizeTransition stateW ⟨1, false, false⟩ = 2 ↔ (1 : Int) = 0 ∧ false = false) ∧
       (categorizeTransition stateW ⟨1, false, false⟩ = 3 ↔ (1 : Int) = 0 ∧ false = true) ∧
       (categorizeTransition stateW ⟨1, false, false⟩ = 4 ↔
         ((3 : Int) ≤ 1 ∨ (false = true ∧ (0 : Int) < 1)))) :=
  ⟨rfl, by decide, by decide, claim_C7 stateW ⟨1, false, false⟩ rfl (by decide) (by decide)⟩

/-- C5: inputs of length at most 1 come back unchanged (the clone is a
field-for-field value copy). -/
theorem claim_C5 {σ : Type} (rngF : σ → Nat → Nat × σ) (mkRng : Int → σ) (ctx : Ctx)
    (tracks : List Track) (h : tracks.length ≤ 1) :
    sortGo rngF mkRng ctx tracks = .ok tracks := by
  unfold sortGo sortAux
  rw [if_pos h, map_clone]

/-- C5 witness on a singleton input. -/
theorem claim_C5_witness :
    [trackW1].length ≤ 1 ∧
      sortGo rngZero mkRngNat ⟨none, some 1, none, 0⟩ [trackW1] = .ok [trackW1] :=
  ⟨by decide, claim_C5 rngZero mkRngNat ⟨none, some 1, none, 0⟩ [trackW1] (by decide)⟩


/-- C2: with an explicitly supplied seed of `0`, the code falls back to the
clock (`!ok || seed == 0`), so two calls differing only in the observed
time produce different orders on this input — the claim fails for the
seed value 0. -/
theorem claim_C2_counterexample :
    sortGo rngParity mkRngNat ⟨none, some 0, none, 2⟩ [trackW1, trackW2] ≠
      sortGo rngParity mkRngNat ⟨none, some 0, none, 3⟩ [trackW1, trackW2] := by
  decide

/-- C2 (amended): for every explicitly supplied nonzero seed, the output is
a function of the seed, the input order, and the limit alone — the
observed time is never consulted, so two calls agree track for track. -/
theorem claim_C2_amended {σ : Type} (rngF : σ → Nat → Nat × σ) (mkRng : Int → σ)
    (limit : Option Int) (seed : Int) (doneFrom : Option Nat) (now1 now2 : Int)
    (tracks : List Track) (hseed : seed ≠ 0) :
    sortGo rngF mkRng ⟨limit, some seed, doneFrom, now1⟩ tracks =
      sortGo rngF mkRng ⟨limit, some seed, doneFrom, now2⟩ tracks := by
  unfold sortGo
  have h : ∀ now : Int, resolvedSeed ⟨limit, some seed, doneFrom, now⟩ = seed := by
    intro now
    simp [resolvedSeed, seedFromContext, hseed]
  rw [h now1, h now2]
  rfl

/-- C2 amended witness: a concrete nonzero seed, two different clock
values, identical outputs. -/
theorem claim_C2_amended_witness :
    (1 : Int) ≠ 0 ∧
      sortGo rngParity mkRngNat ⟨none, some 1, none, 5⟩ [trackW1, trackW2] =
        sortGo rngParity mkRngNat ⟨none, some 1, none, 6⟩ [trackW1, trackW2] :=
  ⟨by decide,
    claim_C2_amended rngParity mkRngNat none 1 none 5 6 [trackW1, trackW2] (by decide)⟩

/-- C4: a two-track input with a limit of 1 never reaches the polling loop,
so a context cancelled before the first poll still yields a non-error
result with one track — refuting "no non-error result is returned for a
cancelled context". -/
theorem claim_C4_counterexample :
    (2 : Nat) ≤ [trackLowE, trackHighE].length ∧
      sortGo rngZero mkRngNat ⟨some 1, some 1, some 0, 0⟩ [trackLowE, trackHighE] =
        .ok [trackLowE] := by
  exact ⟨by decide, by decide⟩


/-! ## Bucket scan invariants (claims C3 and C10) -/

lemma enum_hl (l : List Track) :
    ∀ pr ∈ l.enum, pr.1 < l.length ∧ l.getD pr.1 default = pr.2 := by
  intro pr hpr
  exact mem_enum_spec (l := l) (i := pr.1) (x := pr.2) (by simpa using hpr)

lemma categorize_range (st : MixState) (tr : Transition) :
    0 ≤ categorizeTransition st tr ∧ categorizeTransition st tr ≤ 4 := by
  unfold categorizeTransition
  split_ifs <;> omega

lemma diff_le_two_of_cat_lt (st : MixState) (tr : Transition) (hprev : st.prevSet = true)
    (h : categorizeTransition st tr < 4) : 0 ≤ tr.diff ∧ tr.diff ≤ 2 := by
  unfold categorizeTransition at h
  rw [hprev] at h
  simp only [Bool.true_eq_false, if_false] at h
  split_ifs at h <;> omega

lemma cat_lt_of_shallow (st : MixState) (tr : Transition) (hprev : st.prevSet = true)
    (h : tr.diff = 0 ∨ (0 ≤ tr.diff ∧ tr.diff ≤ 2 ∧ tr.modeChange = false)) :
    categorizeTransition st tr < 4 := by
  unfold categorizeTransition
  rw [hprev]
  simp only [Bool.true_eq_false, if_false]
  rcases h with h | ⟨h0, h2, hm⟩
  · split_ifs <;> simp_all
  · rw [hm]
    split_ifs <;> simp_all <;> omega

lemma transition_diff_bounds (st : MixState) (c : Track) (hprev : st.prevSet = true)
    (hv1 : validTrack st.prev) (hv2 : validTrack c) :
    0 ≤ (computeTransition st c).diff ∧ (computeTransition st c).diff ≤ 11 := by
  obtain ⟨hv1a, hv1b⟩ := hv1
  obtain ⟨hv2a, hv2b⟩ := hv2
  simp only [computeTransition, hprev]
  simp only [Bool.true_eq_false, if_false]
  split_ifs <;> omega

lemma updBucket_self (b : Nat → Option (Nat × ℚ)) (c : Nat) (v : Nat × ℚ) :
    ((updBucket b c (some v)) c).isSome := by
  simp [updBucket]

lemma updBucket_keeps (b : Nat → Option (Nat × ℚ)) (c c' : Nat) (v : Nat × ℚ)
    (h : (b c).isSome) : ((updBucket b c' (some v)) c).isSome := by
  by_cases hc : c = c' <;> simp [updBucket, hc, h]

lemma scanBuckets_spec {σ : Type} (rngF : σ → Nat → Nat × σ) (p : MixPlanner σ)
    (st : MixState) :
    ∀ (l : List (Nat × Track)) (b : Nat → Option (Nat × ℚ)) (s : σ),
      (∀ pr ∈ l, pr.1 < p.remaining.length ∧ p.remaining.getD pr.1 default = pr.2) →
      (∀ c i sc, b c = some (i, sc) →
        i < p.remaining.length ∧
          categorizeTransition st (computeTransition st (p.remaining.getD i default)) =
            (c : Int)) →
      ∀ c i sc, (scanBuckets rngF p st l b s).1 c = some (i, sc) →
        i < p.remaining.length ∧
          categorizeTransition st (computeTransition st (p.remaining.getD i default)) =
            (c : Int) := by
  intro l
  induction l with
  | nil =>
      intro b s _ hb
      simpa [scanBuckets] using hb
  | cons hd tl ih =>
      obtain ⟨idx, cand⟩ := hd
      intro b s hl hb
      have hhd := hl (idx, cand) (by simp)
      have htl : ∀ pr ∈ tl, pr.1 < p.remaining.length ∧ p.remaining.getD pr.1 default = pr.2 :=
        fun pr hpr => hl pr (by simp [hpr])
      simp only [scanBuckets]
      split
      · exact ih b s htl hb
      · next hguard =>
        have h0cat : 0 ≤ categorizeTransition st (computeTransition st cand) := by
          push_neg at hguard
          omega
        have hupd : ∀ c i sc,
            updBucket b (categorizeTransition st (computeTransition st cand)).toNat
              (some (idx,
                transitionScoreWithTransition p st cand (computeTransition st cand))) c =
              some (i, sc) →
            i < p.remaining.length ∧
              categorizeTransition st (computeTransition st (p.remaining.getD i default)) =
                (c : Int) := by
          intro c i sc hc
          have hhd1 : idx < p.remaining.length := hhd.1
          have hhd2 : p.remaining.getD idx default = cand := hhd.2
          by_cases hcc : c = (categorizeTransition st (computeTransition st cand)).toNat
          · subst hcc
            simp only [updBucket, eq_self_iff_true, if_true] at hc
            injection hc with hpr
            injection hpr with hi hsc
            subst hi
            refine ⟨hhd1, ?_⟩
            rw [hhd2]
            omega
          · simp only [updBucket, if_neg hcc] at hc
            exact hb c i sc hc
        split
        · exact ih _ _ htl hupd
        · split
          · exact ih _ _ htl hupd
          · split
            · split
              · exact ih _ _ htl hupd
              · exact ih _ _ htl hb
            · exact ih _ _ htl hb

lemma scanBuckets_keeps {σ : Type} (rngF : σ → Nat → Nat × σ) (p : MixPlanner σ)
    (st : MixState) :
    ∀ (l : List (Nat × Track)) (b : Nat → Option (Nat × ℚ)) (s : σ) (c : Nat),
      (b c).isSome → ((scanBuckets rngF p st l b s).1 c).isSome := by
  intro l
  induction l with
  | nil =>
      intro b s c h
      simpa [scanBuckets] using h
  | cons hd tl ih =>
      obtain ⟨idx, cand⟩ := hd
      intro b s c h
      simp only [scanBuckets]
      split
      · exact ih b s c h
      · split
        · exact ih _ _ c (updBucket_keeps _ _ _ _ h)
        · split
          · exact ih _ _ c (updBucket_keeps _ _ _ _ h)
          · split
            · split
              · exact ih _ _ c (updBucket_keeps _ _ _ _ h)
              · exact ih _ _ c h
            · exact ih _ _ c h

lemma scanBuckets_covers {σ : Type} (rngF : σ → Nat → Nat × σ) (p : MixPlanner σ)
    (st : MixState) :
    ∀ (l : List (Nat × Track)) (b : Nat → Option (Nat × ℚ)) (s : σ) (i : Nat) (cand : Track),
      (i, cand) ∈ l →
      ((scanBuckets rngF p st l b s).1
        (categorizeTransition st (computeTransition st cand)).toNat).isSome := by
  intro l
  induction l with
  | nil =>
      intro b s i cand h
      cases h
  | cons hd tl ih =>
      obtain ⟨idx, cand0⟩ := hd
      intro b s i cand h
      rcases List.mem_cons.mp h with heq | hmem
      · injection heq with h1 h2
        subst h1
        subst h2
        have hrange := categorize_range st (computeTransition st cand)
        simp only [scanBuckets]
        rw [if_neg (by omega)]
        cases hm : b (categorizeTransition st (computeTransition st cand)).toNat with
        | none =>
            exact scanBuckets_keeps rngF p st tl _ _ _ (updBucket_self ..)
        | some best =>
            dsimp only
            split
            · exact scanBuckets_keeps rngF p st tl _ _ _ (updBucket_self ..)
            · split
              · split
                · exact scanBuckets_keeps rngF p st tl _ _ _ (updBucket_self ..)
                · exact scanBuckets_keeps rngF p st tl _ _ _ (by simp [hm])
              · exact scanBuckets_keeps rngF p st tl _ _ _ (by simp [hm])
      · simp only [scanBuckets]
        split
        · exact ih _ _ i cand hmem
        · split
          · exact ih _ _ i cand hmem
          · split
            · exact ih _ _ i cand hmem
            · split
              · split
                · exact ih _ _ i cand hmem
                · exact ih _ _ i cand hmem
              · exact ih _ _ i cand hmem


lemma findFirstSet_isSome_of_mem :
    ∀ (order : List Nat) (b : Nat → Option (Nat × ℚ)) (c : Nat),
      c ∈ order → (b c).isSome → (findFirstSet order b).isSome := by
  intro order
  induction order with
  | nil => intro b c hc; cases hc
  | cons a rest ih =>
      intro b c hc hset
      simp only [findFirstSet]
      by_cases ha : (b a).isSome
      · simp [ha]
      · rw [if_neg (by simp [ha])]
        rcases List.mem_cons.mp hc with rfl | hc'
        · exact absurd hset ha
        · exact ih b c hc' hset

lemma findFirstSet_sound :
    ∀ (order : List Nat) (b : Nat → Option (Nat × ℚ)) (cw : Nat),
      findFirstSet order b = some cw → (b cw).isSome := by
  intro order
  induction order with
  | nil => intro b cw h; cases h
  | cons a rest ih =>
      intro b cw h
      simp only [findFirstSet] at h
      by_cases ha : (b a).isSome
      · rw [if_pos ha] at h
        injection h with h
        subst h
        exact ha
      · rw [if_neg ha] at h
        exact ih b cw h

lemma findFirstAmong (a1 a2 a3 a4 c : Nat) (b : Nat → Option (Nat × ℚ))
    (h1 : a1 < 4) (h2 : a2 < 4) (h3 : a3 < 4) (h4 : a4 < 4)
    (hc : c = a1 ∨ c = a2 ∨ c = a3 ∨ c = a4) (hset : (b c).isSome) :
    ∃ cw, findFirstSet [a1, a2, a3, a4, 4] b = some cw ∧ (b cw).isSome ∧ cw < 4 := by
  by_cases e1 : (b a1).isSome
  · exact ⟨a1, by simp [findFirstSet, e1], e1, h1⟩
  · by_cases e2 : (b a2).isSome
    · exact ⟨a2, by simp [findFirstSet, e1, e2], e2, h2⟩
    · by_cases e3 : (b a3).isSome
      · exact ⟨a3, by simp [findFirstSet, e1, e2, e3], e3, h3⟩
      · by_cases e4 : (b a4).isSome
        · exact ⟨a4, by simp [findFirstSet, e1, e2, e3, e4], e4, h4⟩
        · rcases hc with rfl | rfl | rfl | rfl <;> simp_all

lemma categoryOrder_cases (st : MixState) :
    categoryOrder st = [0, 1, 2, 3, 4] ∨ categoryOrder st = [1, 0, 2, 3, 4] ∨
      categoryOrder st = [3, 0, 1, 2, 4] ∨ categoryOrder st = [3, 1, 0, 2, 4] := by
  unfold categoryOrder
  split_ifs <;> decide

lemma mem_categoryOrder (st : MixState) (c : Nat) (hc : c < 5) : c ∈ categoryOrder st := by
  rcases categoryOrder_cases st with h | h | h | h <;> rw [h] <;> interval_cases c <;> decide

lemma chooseNextIndex_lt {σ : Type} (rngF : σ → Nat → Nat × σ) (p : MixPlanner σ)
    (st : MixState) (h : p.remaining ≠ []) :
    (chooseNextIndex rngF p st).1 < p.remaining.length := by
  have hlen : 0 < p.remaining.length := List.length_pos.mpr h
  have hspec := scanBuckets_spec rngF p st p.remaining.enum (fun _ => none) p.rngState
    (enum_hl p.remaining) (by intro c i sc hc; cases hc)
  unfold chooseNextIndex
  cases hfind : findFirstSet (categoryOrder st) (nextBuckets rngF p st).1 with
  | none => simpa [hfind] using hlen
  | some cw =>
      cases hbc : (nextBuckets rngF p st).1 cw with
      | none => simp [hfind, hbc, hlen]
      | some best =>
          obtain ⟨iw, scw⟩ := best
          simp only [hfind, hbc]
          exact (hspec cw iw scw hbc).1

/-- C10: with a non-empty pool and a previous track, some bucket is filled
after the candidate scan, the category walk finds one, and whatever
category it lands on is filled — so neither index-0 fallback of
`chooseNextIndex` is ever used. -/
theorem claim_C10 {σ : Type} (rngF : σ → Nat → Nat × σ) (p : MixPlanner σ) (st : MixState)
    (hne : p.remaining ≠ []) (hprev : st.prevSet = true) :
    (∃ c : Nat, c < 5 ∧ ((nextBuckets rngF p st).1 c).isSome) ∧
      findFirstSet (categoryOrder st) (nextBuckets rngF p st).1 ≠ none ∧
      (∀ cw, findFirstSet (categoryOrder st) (nextBuckets rngF p st).1 = some cw →
        ((nextBuckets rngF p st).1 cw).isSome) := by
  obtain ⟨a, t, hr⟩ : ∃ a t, p.remaining = a :: t := by
    rcases hp : p.remaining with _ | ⟨a, t⟩
    · exact absurd hp hne
    · exact ⟨a, t, rfl⟩
  have hmem : (0, a) ∈ p.remaining.enum := by
    rw [hr]
    exact List.mem_cons_self _ _
  have hcov := scanBuckets_covers rngF p st p.remaining.enum (fun _ => none) p.rngState 0 a hmem
  have hrange := categorize_range st (computeTransition st a)
  have hlt : (categorizeTransition st (computeTransition st a)).toNat < 5 := by omega
  refine ⟨⟨_, hlt, hcov⟩, ?_, ?_⟩
  · have := findFirstSet_isSome_of_mem (categoryOrder st) (nextBuckets rngF p st).1 _
      (mem_categoryOrder st _ hlt) hcov
    exact Option.isSome_iff_ne_none.mp this
  · intro cw hcw
    exact findFirstSet_sound _ _ _ hcw

/-- C10 witness: a pool holding one track and a set previous track. -/
theorem claim_C10_witness :
    plannerW.remaining ≠ [] ∧ stateW.prevSet = true ∧
      ((∃ c : Nat, c < 5 ∧ ((nextBuckets rngZero plannerW stateW).1 c).isSome) ∧
        findFirstSet (categoryOrder stateW) (nextBuckets rngZero plannerW stateW).1 ≠ none ∧
        (∀ cw, findFirstSet (categoryOrder stateW) (nextBuckets rngZero plannerW stateW).1 =
            some cw →
          ((nextBuckets rngZero plannerW stateW).1 cw).isSome)) :=
  ⟨by decide, rfl, claim_C10 rngZero plannerW stateW (by decide) rfl⟩

/-- C3: whenever a shallow candidate (distance ≤ 2 without mode change, or
distance 0) remains in the pool, the track picked by `chooseNextIndex` has
forward key-number distance at most 3 from the previous track. -/
theorem claim_C3 {σ : Type} (rngF : σ → Nat → Nat × σ) (p : MixPlanner σ) (st : MixState)
    (hprev : st.prevSet = true) (hvprev : validTrack st.prev) (t : Track)
    (htmem : t ∈ p.remaining) (hvt : validTrack t) (hshallow : shallowStep st t) :
    (computeTransition st
      (p.remaining.getD (chooseNextIndex rngF p st).1 default)).diff ≤ 3 := by
  have hdiff := transition_diff_bounds st t hprev hvprev hvt
  have hsh : (computeTransition st t).diff = 0 ∨
      (0 ≤ (computeTransition st t).diff ∧ (computeTransition st t).diff ≤ 2 ∧
        (computeTransition st t).modeChange = false) := by
    rcases hshallow with ⟨h2, hmchg⟩ | h0
    · exact Or.inr ⟨hdiff.1, h2, hmchg⟩
    · exact Or.inl h0
  have hcat := cat_lt_of_shallow st (computeTransition st t) hprev hsh
  have h0cat := (categorize_range st (computeTransition st t)).1
  obtain ⟨i, hienum⟩ := enum_of_mem htmem
  have hcov := scanBuckets_covers rngF p st p.remaining.enum (fun _ => none) p.rngState
    i t hienum
  have hcatT4 : (categorizeTransition st (computeTransition st t)).toNat < 4 := by omega
  obtain ⟨cw, hcw, hcwset, hcw4⟩ :
      ∃ cw, findFirstSet (categoryOrder st) (nextBuckets rngF p st).1 = some cw ∧
        ((nextBuckets rngF p st).1 cw).isSome ∧ cw < 4 := by
    rcases categoryOrder_cases st with h | h | h | h <;> rw [h]
    · exact findFirstAmong 0 1 2 3 _ _ (by decide) (by decide) (by decide) (by decide)
        (by omega) hcov
    · exact findFirstAmong 1 0 2 3 _ _ (by decide) (by decide) (by decide) (by decide)
        (by omega) hcov
    · exact findFirstAmong 3 0 1 2 _ _ (by decide) (by decide) (by decide) (by decide)
        (by omega) hcov
    · exact findFirstAmong 3 1 0 2 _ _ (by decide) (by decide) (by decide) (by decide)
        (by omega) hcov
  obtain ⟨⟨iw, scw⟩, hbw⟩ := Option.isSome_iff_exists.mp hcwset
  have hspec := scanBuckets_spec rngF p st p.remaining.enum (fun _ => none) p.rngState
    (enum_hl p.remaining) (by intro c i sc hc; cases hc) cw iw scw hbw
  have hchoose : (chooseNextIndex rngF p st).1 = iw := by
    unfold chooseNextIndex
    simp [hcw, hbw]
  rw [hchoose]
  have hcatw : categorizeTransition st
      (computeTransition st (p.remaining.getD iw default)) < 4 := by
    rw [hspec.2]
    omega
  have := diff_le_two_of_cat_lt st
    (computeTransition st (p.remaining.getD iw default)) hprev hcatw
  omega

/-- C3 witness: previous track 1A, single remaining candidate 2A. -/
theorem claim_C3_witness :
    stateW.prevSet = true ∧ validTrack stateW.prev ∧ trackW2 ∈ plannerW.remaining ∧
      validTrack trackW2 ∧ shallowStep stateW trackW2 ∧
      (computeTransition stateW
        (plannerW.remaining.getD (chooseNextIndex rngZero plannerW stateW).1 default)).diff ≤ 3 :=
  ⟨rfl, by decide, by decide, by decide, by decide,
    claim_C3 rngZero plannerW stateW rfl (by decide) trackW2 (by decide) (by decide) (by decide)⟩


/-! ## Start selection (claim C8) -/

lemma tol_pos : (0 : ℚ) < startSelectionTolerance := by
  norm_num [startSelectionTolerance]

lemma startScan_bound {σ : Type} (p : MixPlanner σ) :
    ∀ (l : List (Nat × Track)) (best : Option ℚ) (cands : List Nat),
      (∀ pr ∈ l, pr.1 < p.remaining.length) →
      (∀ i ∈ cands, i < p.remaining.length) →
      ∀ i ∈ (startScan p l best cands).2, i < p.remaining.length := by
  intro l
  induction l with
  | nil =>
      intro best cands _ hcands
      simpa [startScan] using hcands
  | cons hd tl ih =>
      obtain ⟨idx, cand⟩ := hd
      intro best cands hl hcands
      have hhd : idx < p.remaining.length := hl (idx, cand) (by simp)
      have htl : ∀ pr ∈ tl, pr.1 < p.remaining.length := fun pr hpr => hl pr (by simp [hpr])
      cases best with
      | none =>
          simp only [startScan]
          exact ih _ _ htl (by intro i hi; simp at hi; omega)
      | some B =>
          simp only [startScan]
          split
          · exact ih _ _ htl (by intro i hi; simp at hi; omega)
          · split
            · refine ih _ _ htl ?_
              intro i hi
              rcases List.mem_append.mp hi with hi | hi
              · exact hcands i hi
              · simp at hi
                omega
            · exact ih _ _ htl hcands

lemma startScan_tol {σ : Type} (p : MixPlanner σ) :
    ∀ (l : List (Nat × Track)) (B : ℚ) (cands : List Nat),
      (∀ pr ∈ l, pr.1 < p.remaining.length ∧ p.remaining.getD pr.1 default = pr.2) →
      cands ≠ [] →
      (∀ i ∈ cands,
        startScore p (p.remaining.getD i default) ≤ B + startSelectionTolerance) →
      ∃ B', (startScan p l (some B) cands).1 = some B' ∧ B' ≤ B ∧
        (startScan p l (some B) cands).2 ≠ [] ∧
        (∀ i ∈ (startScan p l (some B) cands).2,
          startScore p (p.remaining.getD i default) ≤ B' + startSelectionTolerance) ∧
        (∀ pr ∈ l, B' ≤ startScore p pr.2 + startSelectionTolerance) := by
  intro l
  induction l with
  | nil =>
      intro B cands _ hc hs
      exact ⟨B, rfl, le_refl B, hc, hs, by simp⟩
  | cons hd tl ih =>
      obtain ⟨idx, cand⟩ := hd
      intro B cands hl hc hs
      have hhd2 : p.remaining.getD idx default = cand := (hl (idx, cand) (by simp)).2
      have htl : ∀ pr ∈ tl, pr.1 < p.remaining.length ∧ p.remaining.getD pr.1 default = pr.2 :=
        fun pr hpr => hl pr (by simp [hpr])
      have htol := tol_pos
      simp only [startScan]
      split
      · next hlt =>
        obtain ⟨B', h1, h2, h3, h4, h5⟩ := ih (startScore p cand) [idx] htl (by simp)
          (by
            intro i hi
            simp at hi
            subst hi
            rw [hhd2]
            linarith)
        refine ⟨B', h1, by linarith, h3, h4, ?_⟩
        intro pr hpr
        rcases List.mem_cons.mp hpr with rfl | hpr'
        · simp only
          linarith
        · exact h5 pr hpr'
      · next hnlt =>
        split
        · next hle =>
          obtain ⟨B', h1, h2, h3, h4, h5⟩ := ih B (cands ++ [idx]) htl (by simp)
            (by
              intro i hi
              rcases List.mem_append.mp hi with hi | hi
              · exact hs i hi
              · simp at hi
                subst hi
                rw [hhd2]
                exact hle)
          refine ⟨B', h1, h2, h3, h4, ?_⟩
          intro pr hpr
          rcases List.mem_cons.mp hpr with rfl | hpr'
          · simp only
            linarith
          · exact h5 pr hpr'
        · next hnle =>
          obtain ⟨B', h1, h2, h3, h4, h5⟩ := ih B cands htl hc hs
          refine ⟨B', h1, h2, h3, h4, ?_⟩
          intro pr hpr
          rcases List.mem_cons.mp hpr with rfl | hpr'
          · simp only
            linarith
          · exact h5 pr hpr'

/-- C8: the running 1.0-tolerance pass keeps candidate 1 (score −4)
although the true minimum (candidate 2, score −6) is more than 1.0 below
it, and the seeded pick can select it — the collected set is not "all
candidates within 1.0 of the minimum". -/
theorem claim_C8_counterexample :
    (chooseStartIndex rngSecond plannerStart).1 = 1 ∧
      startScore plannerStart (plannerStart.remaining.getD 1 default) >
        startScore plannerStart (plannerStart.remaining.getD 2 default) +
          startSelectionTolerance := by
  exact ⟨by decide, by decide⟩

/-- C8 (amended): the chosen start always scores within 2.0 units of the
minimum start score (each collected candidate is within 1.0 of the final
running best, which is within 1.0 of every score). -/
theorem claim_C8_amended {σ : Type} (rngF : σ → Nat → Nat × σ)
    (hrng : ∀ s n, 0 < n → (rngF s n).1 < n) (p : MixPlanner σ)
    (hne : p.remaining ≠ []) :
    ∀ t ∈ p.remaining,
      startScore p (p.remaining.getD (chooseStartIndex rngF p).1 default) ≤
        startScore p t + 2 * startSelectionTolerance := by
  obtain ⟨a, tl, hr⟩ : ∃ a tl, p.remaining = a :: tl := by
    rcases hp : p.remaining with _ | ⟨a, tl⟩
    · exact absurd hp hne
    · exact ⟨a, tl, rfl⟩
  have htol := tol_pos
  have henum : p.remaining.enum = (0, a) :: List.enumFrom 1 tl := by
    rw [hr]
    rfl
  have hgetD0 : p.remaining.getD 0 default = a := by rw [hr]; rfl
  have hl : ∀ pr ∈ List.enumFrom 1 tl,
      pr.1 < p.remaining.length ∧ p.remaining.getD pr.1 default = pr.2 := by
    intro pr hpr
    obtain ⟨hge, hlt, hget⟩ := mem_enumFrom_spec (l := tl) (n := 1) (i := pr.1) (x := pr.2)
      (by simpa using hpr)
    constructor
    · rw [hr]
      simp only [List.length_cons]
      omega
    · rw [hr]
      obtain ⟨j, hj⟩ : ∃ j, pr.1 = j + 1 := ⟨pr.1 - 1, by omega⟩
      rw [hj, List.getD_cons_succ]
      rw [hj] at hget
      simpa using hget
  obtain ⟨B', h1, h2, h3, h4, h5⟩ :=
    startScan_tol p (List.enumFrom 1 tl) (startScore p a) [0] hl (by simp)
      (by
        intro i hi
        simp at hi
        subst hi
        rw [hgetD0]
        linarith)
  intro t ht
  have hstep : startScan p p.remaining.enum none [] =
      startScan p (List.enumFrom 1 tl) (some (startScore p a)) [0] := by
    rw [henum]
    simp [startScan]
  have hchosen : startScore p
      (p.remaining.getD (chooseStartIndex rngF p).1 default) ≤
        B' + startSelectionTolerance := by
    unfold chooseStartIndex
    rw [hstep]
    rw [if_neg (by
      intro hlen
      exact h3 (List.length_eq_zero.mp hlen))]
    have hlenpos : 0 < (startScan p (List.enumFrom 1 tl)
        (some (startScore p a)) [0]).2.length :=
      List.length_pos.mpr h3
    have hk := hrng p.rngState (startScan p (List.enumFrom 1 tl)
        (some (startScore p a)) [0]).2.length hlenpos
    have hmem : (startScan p (List.enumFrom 1 tl) (some (startScore p a)) [0]).2.getD
        (rngF p.rngState (startScan p (List.enumFrom 1 tl)
          (some (startScore p a)) [0]).2.length).1 0 ∈
        (startScan p (List.enumFrom 1 tl) (some (startScore p a)) [0]).2 := by
      rw [List.getD_eq_getElem _ 0 hk]
      exact List.getElem_mem hk
    exact h4 _ hmem
  rw [hr] at ht
  rcases List.mem_cons.mp ht with rfl | ht'
  · rw [← hgetD0] at h2 ⊢
    linarith
  · obtain ⟨i, hi⟩ := enumFrom_of_mem tl 1 ht'
    have := h5 (i, t) hi
    simp only at this
    linarith

/-- C8 amended witness on the three-track start-selection planner. -/
theorem claim_C8_amended_witness :
    (∀ s n, 0 < n → (rngZero s n).1 < n) ∧ plannerStart.remaining ≠ [] ∧
      ∀ t ∈ plannerStart.remaining,
        startScore plannerStart
            (plannerStart.remaining.getD (chooseStartIndex rngZero plannerStart).1 default) ≤
          startScore plannerStart t + 2 * startSelectionTolerance :=
  ⟨fun _ _ h => h, by decide,
    claim_C8_amended rngZero (fun _ _ h => h) plannerStart (by decide)⟩


lemma chooseStartIndex_lt {σ : Type} (rngF : σ → Nat → Nat × σ) (p : MixPlanner σ)
    (h : p.remaining ≠ []) : (chooseStartIndex rngF p).1 < p.remaining.length := by
  have hlen : 0 < p.remaining.length := List.length_pos.mpr h
  have hbound := startScan_bound p p.remaining.enum none []
    (fun pr hpr => (enum_hl p.remaining pr hpr).1) (by intro i hi; cases hi)
  simp only [chooseStartIndex]
  split
  · exact hlen
  · by_cases hk : (rngF p.rngState (startScan p p.remaining.enum none []).2.length).1 <
        (startScan p p.remaining.enum none []).2.length
    · have hmem : (startScan p p.remaining.enum none []).2.getD
          (rngF p.rngState (startScan p p.remaining.enum none []).2.length).1 0 ∈
          (startScan p p.remaining.enum none []).2 := by
        rw [List.getD_eq_getElem _ 0 hk]
        exact List.getElem_mem hk
      exact hbound _ hmem
    · push_neg at hk
      rw [List.getD_eq_default _ 0 hk]
      exact hlen

/-! ## The emission loop (claims C1 and C4) -/

lemma effTarget_min (limit : Int) (n : Nat) :
    effectiveTarget limit n = min (requestedTarget limit n) (n : Int) := by
  unfold effectiveTarget requestedTarget
  split_ifs <;> omega

lemma effTarget_le (limit : Int) (n : Nat) : effectiveTarget limit n ≤ (n : Int) := by
  unfold effectiveTarget
  split_ifs <;> omega

lemma effTarget_ge_one (limit : Int) (n : Nat) (h : 1 ≤ n) :
    1 ≤ effectiveTarget limit n := by
  unfold effectiveTarget
  split_ifs <;> omega

lemma take_length2 {σ : Type} (p : MixPlanner σ) (s : σ) (idx : Nat) :
    (MixPlanner.take { p with rngState := s } idx).2.remaining.length =
      p.remaining.length - 1 :=
  take_length _ idx

lemma take_target2 {σ : Type} (p : MixPlanner σ) (s : σ) (idx : Nat) :
    (MixPlanner.take { p with rngState := s } idx).2.targetCount = p.targetCount :=
  rfl

lemma take_perm2 {σ : Type} (p : MixPlanner σ) (s : σ) (idx : Nat)
    (h : idx < p.remaining.length) :
    ((MixPlanner.take { p with rngState := s } idx).1 ::
      (MixPlanner.take { p with rngState := s } idx).2.remaining).Perm p.remaining :=
  take_perm _ idx h

lemma sortLoop_ok {σ : Type} (rngF : σ → Nat → Nat × σ) :
    ∀ (fuel : Nat) (p : MixPlanner σ) (st : MixState) (ordered : List Track) (pollIdx : Nat),
      p.remaining.length ≤ fuel →
      (ordered.length : Int) ≤ p.targetCount →
      p.targetCount ≤ (ordered.length : Int) + (p.remaining.length : Int) →
      ∃ out, sortLoop rngF none pollIdx fuel p st ordered = .ok out ∧
        (out.length : Int) = p.targetCount ∧
        ∃ rest, (out ++ rest).Perm (ordered ++ p.remaining) := by
  intro fuel
  induction fuel with
  | zero =>
      intro p st ordered pollIdx hfuel hle hge
      exact ⟨ordered, rfl, by omega, p.remaining, List.Perm.refl _⟩
  | succ fuel ih =>
      intro p st ordered pollIdx hfuel hle hge
      simp only [sortLoop]
      split
      · next hguard =>
        obtain ⟨hg1, hg2⟩ := hguard
        rw [if_neg (by simp [ctxDoneAt])]
        have hne : p.remaining ≠ [] := by
          intro h0
          rw [h0] at hg1
          simp at hg1
        have hidx := chooseNextIndex_lt rngF p st hne
        obtain ⟨out, hout, hlen, rest, hperm⟩ := ih
          (MixPlanner.take { p with rngState := (chooseNextIndex rngF p st).2 }
            (chooseNextIndex rngF p st).1).2
          ((MixPlanner.take { p with rngState := (chooseNextIndex rngF p st).2 }
            (chooseNextIndex rngF p st).1).1 |> st.advance)
          (ordered ++ [(MixPlanner.take { p with rngState := (chooseNextIndex rngF p st).2 }
            (chooseNextIndex rngF p st).1).1])
          (pollIdx + 1)
          (by rw [take_length2]; omega)
          (by
            rw [take_target2]
            simp only [List.length_append, List.length_cons, List.length_nil]
            push_cast
            omega)
          (by
            rw [take_target2, take_length2]
            simp only [List.length_append, List.length_cons, List.length_nil]
            push_cast
            omega)
        refine ⟨out, hout, by rw [hlen, take_target2], rest, ?_⟩
        have htake := take_perm2 p (chooseNextIndex rngF p st).2 (chooseNextIndex rngF p st).1
          hidx
        refine hperm.trans ?_
        rw [List.append_assoc]
        exact List.Perm.append_left ordered htake
      · next hguard =>
        refine ⟨ordered, rfl, ?_, p.remaining, List.Perm.refl _⟩
        push_neg at hguard
        by_cases h0 : 0 < p.remaining.length
        · have := hguard h0
          omega
        · omega


/-- C1: with no cancellation, Sort succeeds; the output length is
min(requested target, input length) with the target defaulting to the
input length when no positive limit is stored; and the output extends to a
permutation of the input, so every emitted track is a value copy of an
input track and no input track is used twice. -/
theorem claim_C1 {σ : Type} (rngF : σ → Nat → Nat × σ) (mkRng : Int → σ) (ctx : Ctx)
    (tracks : List Track) (hnc : ctx.doneFrom = none) :
    ∃ out, sortGo rngF mkRng ctx tracks = .ok out ∧
      (out.length : Int) =
        min (requestedTarget (limitFromContext ctx) tracks.length) (tracks.length : Int) ∧
      (∃ rest, (out ++ rest).Perm tracks) ∧
      ∀ t ∈ out, t ∈ tracks := by
  unfold sortGo
  rw [hnc]
  rw [← effTarget_min]
  by_cases hsmall : tracks.length ≤ 1
  · refine ⟨tracks, ?_, ?_, ⟨[], by simp⟩, fun t ht => ht⟩
    · unfold sortAux
      rw [if_pos hsmall, map_clone]
    · unfold effectiveTarget
      split_ifs <;> omega
  · push_neg at hsmall
    simp only [sortAux]
    rw [if_neg (by omega)]
    set target := effectiveTarget (limitFromContext ctx) tracks.length with htarget
    set p := newMixPlanner mkRng (resolvedSeed ctx) tracks target with hp
    set pick := chooseStartIndex rngF p with hpick
    set taken := MixPlanner.take { p with rngState := pick.2 } pick.1 with htaken
    have hprem : p.remaining = tracks := by
      rw [hp]
      simp [newMixPlanner, map_clone]
    have hptar : p.targetCount = target := by
      rw [hp]
      simp [newMixPlanner]
    have hne : p.remaining ≠ [] := by
      rw [hprem]
      intro h0
      rw [h0] at hsmall
      simp at hsmall
    have hidx : pick.1 < p.remaining.length := by
      rw [hpick]
      exact chooseStartIndex_lt rngF p hne
    have htkperm : (taken.1 :: taken.2.remaining).Perm tracks := by
      rw [htaken, ← hprem]
      exact take_perm2 p pick.2 pick.1 hidx
    have htklen : taken.2.remaining.length = tracks.length - 1 := by
      rw [htaken, take_length2, hprem]
    have htktar : taken.2.targetCount = target := by
      rw [htaken, take_target2, hptar]
    have htle : target ≤ (tracks.length : Int) := effTarget_le _ _
    have htge : 1 ≤ target := effTarget_ge_one _ _ (by omega)
    by_cases hearly : target ≤ (1 : Int)
    · rw [if_pos (by simpa using hearly)]
      refine ⟨[taken.1], rfl, by simp; omega, ⟨taken.2.remaining, htkperm⟩, ?_⟩
      intro t ht
      simp at ht
      subst ht
      exact htkperm.mem_iff.mp (by simp)
    · rw [if_neg (by simpa using hearly)]
      obtain ⟨out, hout, hlen, rest, hperm⟩ := sortLoop_ok rngF taken.2.remaining.length
        taken.2 (initialState taken.2 taken.1) [taken.1] 0 (le_refl _)
        (by rw [htktar]; simp; omega)
        (by rw [htktar, htklen]; simp; omega)
      refine ⟨out, hout, ?_, ⟨rest, hperm.trans htkperm⟩, ?_⟩
      · rw [hlen, htktar]
      · intro t ht
        exact ((hperm.trans htkperm).mem_iff).mp (List.mem_append.mpr (Or.inl ht))

/-- C1 witness on a concrete two-track input. -/
theorem claim_C1_witness :
    (⟨none, some 1, none, 0⟩ : Ctx).doneFrom = none ∧
      ∃ out, sortGo rngZero mkRngNat ⟨none, some 1, none, 0⟩ [trackLowE, trackHighE] =
          .ok out ∧
        (out.length : Int) =
          min (requestedTarget (limitFromContext ⟨none, some 1, none, 0⟩)
            [trackLowE, trackHighE].length) (([trackLowE, trackHighE].length : Nat) : Int) ∧
        (∃ rest, (out ++ rest).Perm [trackLowE, trackHighE]) ∧
        ∀ t ∈ out, t ∈ [trackLowE, trackHighE] :=
  ⟨rfl, claim_C1 rngZero mkRngNat ⟨none, some 1, none, 0⟩ [trackLowE, trackHighE] rfl⟩

lemma sortLoop_cancel {σ : Type} (rngF : σ → Nat → Nat × σ) (d : Nat) :
    ∀ (fuel : Nat) (p : MixPlanner σ) (st : MixState) (ordered : List Track) (pollIdx : Nat),
      p.remaining.length ≤ fuel →
      pollIdx ≤ d →
      ((d - pollIdx : Nat) : Int) + 1 ≤ p.targetCount - (ordered.length : Int) →
      p.targetCount - (ordered.length : Int) ≤ (p.remaining.length : Int) →
      sortLoop rngF (some d) pollIdx fuel p st ordered = .error () := by
  intro fuel
  induction fuel with
  | zero =>
      intro p st ordered pollIdx hfuel hpd hneed hrem
      exfalso
      omega
  | succ fuel ih =>
      intro p st ordered pollIdx hfuel hpd hneed hrem
      simp only [sortLoop]
      rw [if_pos (⟨by omega, by omega⟩ :
        0 < p.remaining.length ∧ (ordered.length : Int) < p.targetCount)]
      by_cases hhit : d ≤ pollIdx
      · rw [if_pos (by simp [ctxDoneAt]; omega)]
      · rw [if_neg (by simp [ctxDoneAt]; omega)]
        have hne : p.remaining ≠ [] := by
          intro h0
          rw [h0] at hrem
          simp at hrem
          omega
        have hidx := chooseNextIndex_lt rngF p st hne
        apply ih
        · rw [take_length2]
          omega
        · omega
        · rw [take_target2]
          simp only [List.length_append, List.length_cons, List.length_nil]
          push_cast
          omega
        · rw [take_target2, take_length2]
          simp only [List.length_append, List.length_cons, List.length_nil]
          push_cast
          omega

/-- C4 (amended): for inputs of length ≥ 2, cancellation is polled before
every greedy step: whenever the signal has fired by step `d` and the
effective target is at least `d + 2` (so step `d` is reached), Sort
returns the cancellation error and emits no tracks.  (With an effective
target of 1 no poll happens — see the counterexample.) -/
theorem claim_C4_amended {σ : Type} (rngF : σ → Nat → Nat × σ) (mkRng : Int → σ)
    (ctx : Ctx) (tracks : List Track) (d : Nat) (h2 : 2 ≤ tracks.length)
    (hd : ctx.doneFrom = some d)
    (hreach : (d : Int) + 2 ≤ effectiveTarget (limitFromContext ctx) tracks.length) :
    sortGo rngF mkRng ctx tracks = .error () := by
  unfold sortGo
  rw [hd]
  simp only [sortAux]
  rw [if_neg (by omega)]
  set target := effectiveTarget (limitFromContext ctx) tracks.length with htarget
  set p := newMixPlanner mkRng (resolvedSeed ctx) tracks target with hp
  set pick := chooseStartIndex rngF p with hpick
  set taken := MixPlanner.take { p with rngState := pick.2 } pick.1 with htaken
  have hprem : p.remaining = tracks := by
    rw [hp]
    simp [newMixPlanner, map_clone]
  have htklen : taken.2.remaining.length = tracks.length - 1 := by
    rw [htaken, take_length2, hprem]
  have htktar : taken.2.targetCount = target := by
    rw [htaken, take_target2, hp]
    simp [newMixPlanner]
  have htle : target ≤ (tracks.length : Int) := effTarget_le _ _
  rw [if_neg (by simp; omega)]
  apply sortLoop_cancel rngF d taken.2.remaining.length taken.2 _ _ 0 (le_refl _) (by omega)
  · rw [htktar]
    simp only [List.length_cons, List.length_nil]
    push_cast
    omega
  · rw [htktar, htklen]
    simp only [List.length_cons, List.length_nil]
    push_cast
    omega

/-- C4 amended witness: two tracks, no limit, cancelled before step 0. -/
theorem claim_C4_amended_witness :
    (2 : Nat) ≤ [trackW1, trackW2].length ∧
      (⟨none, some 1, some 0, 0⟩ : Ctx).doneFrom = some 0 ∧
      ((0 : Nat) : Int) + 2 ≤
        effectiveTarget (limitFromContext ⟨none, some 1, some 0, 0⟩)
          [trackW1, trackW2].length ∧
      sortGo rngZero mkRngNat ⟨none, some 1, some 0, 0⟩ [trackW1, trackW2] = .error () :=
  ⟨by decide, rfl, by decide,
    claim_C4_amended rngZero mkRngNat ⟨none, some 1, some 0, 0⟩ [trackW1, trackW2] 0
      (by decide) rfl (by decide)⟩

end Magicmix
